import Mathlib

set_option linter.unusedSectionVars false

/-!
Shallow embedding of `src/cachequeue.hpp` (`template<typename ValueType, size_t CacheSize>
class CacheQueue`): a fixed-capacity circular buffer with push/pop at both ends,
overwrite-on-full semantics, logical indexing, rotation and reset.

The C++ state is `std::array<ValueType, CacheSize> m_CircleQ`, `size_t m_Head`,
`size_t m_CurrSize`.  We model the backing array as a `List α` of length `CacheSize`
(the capacity is `circleQ.length`), and the two `size_t` fields as `Nat`.  All index
arithmetic in the source ends in `% Capacity()`.  Two of the `size_t` expressions can
wrap modulo `2^64` before that final reduction, and are therefore modelled with explicit
`% 2^64` arithmetic: the one in `BackOff()` (`m_Head + Length() - 1 + Capacity()`
underflows when `m_Head = Length() = 0`) and the one in `operator[]`
(`m_Head + nIndex + Capacity()` overflows for `nIndex` near `SIZE_MAX`).  For
`Capacity() > 0` and state-invariant-respecting fields, no other expression can wrap.

Note on `Length()`: the source reads `return Size();`, and no member or free function
`Size` exists anywhere in the repository, so every instantiation of `Length()` is
ill-formed C++.  The evident intent — used by the file's own header comment
(`for(int nIndex = 0; nIndex < stQ.Length(); ++nIndex)`), by `Back()`, `PushBack()` and
`BackOff()` — is the current element count `m_CurrSize`, and that is what we model.
-/

structure CacheQueue (α : Type) where
  circleQ : List α
  head : Nat
  currSize : Nat
deriving Repr, DecidableEq

namespace CacheQueue

variable {α : Type} [Inhabited α]

/-- `Capacity()`: `return m_CircleQ.size();` — the fixed storage size. -/
def Capacity (q : CacheQueue α) : Nat := q.circleQ.length

/-- `Length()`: `return Size();` in the source; `Size` is undeclared (ill-formed C++),
the intent per the header comment and all internal callers is `m_CurrSize`. -/
def Length (q : CacheQueue α) : Nat := q.currSize

/-- `Empty()`: `return m_CurrSize == 0;` -/
def Empty (q : CacheQueue α) : Bool := q.currSize == 0

/-- `Full()`: `return m_CurrSize == Capacity();` -/
def Full (q : CacheQueue α) : Bool := q.currSize == q.Capacity

/-- `Head()`: `return m_CircleQ[m_Head];` -/
def Head (q : CacheQueue α) : α := q.circleQ.getD q.head default

/-- `Back()`: `return m_CircleQ[(m_Head + Length() + Capacity() - 1) % Capacity()];`
For `Capacity() > 0` the `size_t` expression cannot underflow, so plain `Nat`
subtraction is faithful. -/
def Back (q : CacheQueue α) : α :=
  q.circleQ.getD ((q.head + q.Length + q.Capacity - 1) % q.Capacity) default

/-- `PushHead(u)` (source lines 108–119). -/
def PushHead (x : α) (q : CacheQueue α) : CacheQueue α :=
  if q.Empty then
    { circleQ := q.circleQ.set 0 x, head := 0, currSize := 1 }
  else
    let h := (q.head + q.Capacity - 1) % q.Capacity
    { circleQ := q.circleQ.set h x, head := h, currSize := min (q.currSize + 1) q.Capacity }

/-- `PushBack(u)` (source lines 121–134). -/
def PushBack (x : α) (q : CacheQueue α) : CacheQueue α :=
  if q.Empty then
    { circleQ := q.circleQ.set 0 x, head := 0, currSize := 1 }
  else if q.Full then
    { circleQ := q.circleQ.set q.head x, head := (q.head + 1) % q.Capacity,
      currSize := q.currSize }
  else
    { circleQ := q.circleQ.set ((q.head + q.Length) % q.Capacity) x, head := q.head,
      currSize := min (q.currSize + 1) q.Capacity }

/-- `PopHead()` (source lines 137–143). -/
def PopHead (q : CacheQueue α) : CacheQueue α :=
  if q.Empty then q
  else { q with head := (q.head + 1) % q.Capacity, currSize := q.currSize - 1 }

/-- `PopBack()` (source lines 145–150). -/
def PopBack (q : CacheQueue α) : CacheQueue α :=
  if q.Empty then q
  else { q with currSize := q.currSize - 1 }

/-- `Clear()`: `m_Head = 0; m_CurrSize = 0;` -/
def Clear (q : CacheQueue α) : CacheQueue α :=
  { q with head := 0, currSize := 0 }

/-- `std::rotate(first, nFirst, last)` on index positions into `l`: requires
`first ≤ nFirst ≤ last ≤ l.length` ([first, nFirst) and [nFirst, last) must be valid
ranges); a call violating this precondition is undefined behavior, modelled as `none`.
On success the range [first, last) becomes [nFirst, last) followed by [first, nFirst). -/
def stdRotate (l : List α) (first nFirst last : Nat) : Option (List α) :=
  if first ≤ nFirst ∧ nFirst ≤ last ∧ last ≤ l.length then
    some (l.take first ++
          ((l.drop nFirst).take (last - nFirst) ++ (l.drop first).take (nFirst - first)) ++
          l.drop last)
  else none

/-- `Reset()`: `std::rotate(m_CircleQ.begin(), m_CircleQ.end(), m_CircleQ.begin() + m_Head);`
i.e. the call passes `first = begin`, `nFirst = end`, `last = begin + m_Head`.
`m_Head` is not modified. -/
def Reset (q : CacheQueue α) : Option (CacheQueue α) :=
  (stdRotate q.circleQ 0 q.circleQ.length q.head).map (fun l => { q with circleQ := l })

/-- One iteration of the `nRotate > 0` loop in `Rotate`:
`auto stHead = Head(); PopHead(); PushBack(stHead);` -/
def rotF (q : CacheQueue α) : CacheQueue α := PushBack q.Head (PopHead q)

/-- One iteration of the `nRotate < 0` loop in `Rotate`:
`auto stBack = Back(); PopBack(); PushHead(stBack);` -/
def rotB (q : CacheQueue α) : CacheQueue α := PushHead q.Back (PopBack q)

/-- `Rotate(int nRotate)` (source lines 166–185): no-op on an empty buffer or when
`std::abs(nRotate) == 0`; otherwise `|nRotate|` iterations of the forward (pop head /
push back) or backward (pop back / push head) single-element loop body. -/
def Rotate (q : CacheQueue α) (k : Int) : CacheQueue α :=
  if q.Empty then q
  else if k.natAbs = 0 then q
  else if k > 0 then rotF^[k.natAbs] q
  else rotB^[k.natAbs] q

/-- `operator[](nIndex)`: `return m_CircleQ[(m_Head + nIndex + Capacity()) % Capacity()];`
The sum `m_Head + nIndex + Capacity()` is computed in `size_t`, so it wraps modulo
`2^64` — reachable for `nIndex` near `SIZE_MAX` at any capacity — before the final
`% Capacity()`. -/
def atIdx (q : CacheQueue α) (i : Nat) : α :=
  q.circleQ.getD (((q.head + i + q.Capacity) % 2 ^ 64) % q.Capacity) default

/-- `HeadOff()`: `return m_Head;` -/
def HeadOff (q : CacheQueue α) : Nat := q.head

/-- `BackOff()`: `return (m_Head + Length() - 1 + Capacity()) % Capacity();` in `size_t`
arithmetic; `m_Head + Length() - 1` wraps modulo `2^64` when the buffer is empty and
`m_Head = 0`, so the wrap-around is modelled explicitly. -/
def BackOff (q : CacheQueue α) : Nat :=
  (((q.head + q.Length + (2 ^ 64 - 1)) % 2 ^ 64 + q.Capacity) % 2 ^ 64) % q.Capacity

/-- The physical slot index written by `PushHead`: slot `0` in the empty branch,
otherwise `(m_Head + Capacity() - 1) % Capacity()`. -/
def pushHeadIdx (q : CacheQueue α) : Nat :=
  if q.Empty then 0 else (q.head + q.Capacity - 1) % q.Capacity

/-- The physical slot index written by `PushBack`: slot `0` in the empty branch,
`m_Head` in the full branch, otherwise `(m_Head + Length()) % Capacity()`. -/
def pushBackIdx (q : CacheQueue α) : Nat :=
  if q.Empty then 0 else if q.Full then q.head else (q.head + q.Length) % q.Capacity

/-- The physical slot index read by `Back()`:
`(m_Head + Length() + Capacity() - 1) % Capacity()`. -/
def backIdx (q : CacheQueue α) : Nat :=
  (q.head + q.Length + q.Capacity - 1) % q.Capacity

/-- The freshly constructed queue: `m_CircleQ()` value-initializes the storage,
`m_Head(0)`, `m_CurrSize(0)`. -/
def init (α : Type) [Inhabited α] (N : Nat) : CacheQueue α :=
  { circleQ := List.replicate N default, head := 0, currSize := 0 }

/-- The logical content of the buffer, front to back: logical index `i` lives at
physical slot `(head + i) % Capacity`. -/
def content (q : CacheQueue α) : List α :=
  (List.range q.currSize).map fun i => q.circleQ.getD ((q.head + i) % q.Capacity) default

/-- The state invariant of a valid buffer: the head slot index is in range (which also
forces a positive capacity) and the element count never exceeds the capacity. -/
def Inv (q : CacheQueue α) : Prop :=
  q.head < q.Capacity ∧ q.currSize ≤ q.Capacity

instance (q : CacheQueue α) : Decidable q.Inv := by unfold Inv; infer_instance

/-- The public mutating operations of the class. -/
inductive Op (α : Type) where
  | pushHead (x : α)
  | pushBack (x : α)
  | popHead
  | popBack
  | clear
  | rotate (k : Int)
deriving Repr

/-- Apply one public operation to the buffer state. -/
def applyOp (q : CacheQueue α) : Op α → CacheQueue α
  | .pushHead x => PushHead x q
  | .pushBack x => PushBack x q
  | .popHead => PopHead q
  | .popBack => PopBack q
  | .clear => Clear q
  | .rotate k => Rotate q k

/-- Run a sequence of public operations from the freshly constructed buffer. -/
def run (α : Type) [Inhabited α] (N : Nat) (ops : List (Op α)) : CacheQueue α :=
  ops.foldl applyOp (init α N)

end CacheQueue

namespace CacheQueue

variable {α : Type} [Inhabited α]

theorem getD_set_self (l : List α) (i : Nat) (x d : α) (h : i < l.length) :
    (l.set i x).getD i d = x := by
  simp [List.getD_eq_getElem?_getD, List.getElem?_set_self h]

theorem getD_set_ne (l : List α) {i j : Nat} (x d : α) (h : i ≠ j) :
    (l.set i x).getD j d = l.getD j d := by
  simp [List.getD_eq_getElem?_getD, List.getElem?_set_ne h]

/-- Shifted residues are injective below the modulus. -/
theorem add_mod_inj {N h i j : Nat} (hi : i < N) (hj : j < N)
    (e : (h + i) % N = (h + j) % N) : i = j := by
  have e' : i ≡ j [MOD N] := Nat.ModEq.add_left_cancel' h e
  calc i = i % N := (Nat.mod_eq_of_lt hi).symm
    _ = j % N := e'
    _ = j := Nat.mod_eq_of_lt hj

theorem capacity_pos (q : CacheQueue α) (hI : q.Inv) : 0 < q.Capacity :=
  Nat.lt_of_le_of_lt (Nat.zero_le _) hI.1

theorem length_content (q : CacheQueue α) : (content q).length = q.currSize := by
  simp [content]

/-- Branch reduction: `PushBack` on an empty queue. -/
theorem pushBack_empty_eq (q : CacheQueue α) (x : α) (h : q.currSize = 0) :
    PushBack x q = ⟨q.circleQ.set 0 x, 0, 1⟩ := by
  simp [PushBack, Empty, h]

/-- Branch reduction: `PushBack` on a full, non-empty queue. -/
theorem pushBack_full_eq (q : CacheQueue α) (x : α) (h0 : q.currSize ≠ 0)
    (hf : q.currSize = q.Capacity) :
    PushBack x q =
      ⟨q.circleQ.set q.head x, (q.head + 1) % q.Capacity, q.currSize⟩ := by
  have hc : q.Capacity ≠ 0 := fun hc => h0 (hf.trans hc)
  simp [PushBack, Empty, Full, h0, hf, hc]

/-- Branch reduction: `PushBack` on a non-empty, non-full queue. -/
theorem pushBack_mid_eq (q : CacheQueue α) (x : α) (h0 : q.currSize ≠ 0)
    (hf : q.currSize ≠ q.Capacity) :
    PushBack x q =
      ⟨q.circleQ.set ((q.head + q.Length) % q.Capacity) x, q.head,
       min (q.currSize + 1) q.Capacity⟩ := by
  simp [PushBack, Empty, Full, h0, hf]

/-- Branch reduction: `PushHead` on an empty queue. -/
theorem pushHead_empty_eq (q : CacheQueue α) (x : α) (h : q.currSize = 0) :
    PushHead x q = ⟨q.circleQ.set 0 x, 0, 1⟩ := by
  simp [PushHead, Empty, h]

/-- Branch reduction: `PushHead` on a non-empty queue. -/
theorem pushHead_cons_eq (q : CacheQueue α) (x : α) (h0 : q.currSize ≠ 0) :
    PushHead x q =
      ⟨q.circleQ.set ((q.head + q.Capacity - 1) % q.Capacity) x,
       (q.head + q.Capacity - 1) % q.Capacity, min (q.currSize + 1) q.Capacity⟩ := by
  simp [PushHead, Empty, h0]

theorem popHead_eq (q : CacheQueue α) (h0 : q.currSize ≠ 0) :
    PopHead q = { q with head := (q.head + 1) % q.Capacity, currSize := q.currSize - 1 } := by
  simp [PopHead, Empty, h0]

theorem popBack_eq (q : CacheQueue α) (h0 : q.currSize ≠ 0) :
    PopBack q = { q with currSize := q.currSize - 1 } := by
  simp [PopBack, Empty, h0]

theorem capacity_pushBack (q : CacheQueue α) (x : α) :
    (PushBack x q).Capacity = q.Capacity := by
  unfold PushBack
  split <;> [skip; split] <;> simp [Capacity]

theorem capacity_pushHead (q : CacheQueue α) (x : α) :
    (PushHead x q).Capacity = q.Capacity := by
  unfold PushHead
  split <;> simp [Capacity]

theorem capacity_popHead (q : CacheQueue α) : (PopHead q).Capacity = q.Capacity := by
  unfold PopHead
  split <;> rfl

theorem capacity_popBack (q : CacheQueue α) : (PopBack q).Capacity = q.Capacity := by
  unfold PopBack
  split <;> rfl

theorem capacity_clear (q : CacheQueue α) : (Clear q).Capacity = q.Capacity := rfl

theorem currSize_pushBack (q : CacheQueue α) (x : α) (h : q.currSize < q.Capacity) :
    (PushBack x q).currSize = q.currSize + 1 := by
  by_cases h0 : q.currSize = 0
  · rw [pushBack_empty_eq q x h0, h0]
  · rw [pushBack_mid_eq q x h0 (Nat.ne_of_lt h)]
    exact Nat.min_eq_left h

theorem currSize_pushBack_full (q : CacheQueue α) (x : α) (h0 : q.currSize ≠ 0)
    (hf : q.currSize = q.Capacity) : (PushBack x q).currSize = q.currSize := by
  rw [pushBack_full_eq q x h0 hf]

theorem currSize_pushHead (q : CacheQueue α) (x : α) (h : q.currSize < q.Capacity) :
    (PushHead x q).currSize = q.currSize + 1 := by
  by_cases h0 : q.currSize = 0
  · rw [pushHead_empty_eq q x h0, h0]
  · rw [pushHead_cons_eq q x h0]
    exact Nat.min_eq_left h

theorem currSize_pushHead_full (q : CacheQueue α) (x : α) (h0 : q.currSize ≠ 0)
    (hf : q.currSize = q.Capacity) : (PushHead x q).currSize = q.currSize := by
  rw [pushHead_cons_eq q x h0]
  simp [hf]

theorem currSize_popHead (q : CacheQueue α) : (PopHead q).currSize = q.currSize - 1 := by
  unfold PopHead
  split
  · next h => simp [Empty] at h; omega
  · rfl

theorem currSize_popBack (q : CacheQueue α) : (PopBack q).currSize = q.currSize - 1 := by
  unfold PopBack
  split
  · next h => simp [Empty] at h; omega
  · rfl

theorem inv_pushBack (q : CacheQueue α) (x : α) (hI : q.Inv) : (PushBack x q).Inv := by
  have hN := q.capacity_pos hI
  constructor
  · rw [capacity_pushBack]
    unfold PushBack
    split <;> [skip; split] <;> first
      | exact hN
      | exact Nat.mod_lt _ hN
      | exact hI.1
  · rw [capacity_pushBack]
    unfold PushBack
    split <;> [skip; split] <;> first
      | exact hN
      | exact hI.2
      | exact Nat.min_le_right _ _

theorem inv_pushHead (q : CacheQueue α) (x : α) (hI : q.Inv) : (PushHead x q).Inv := by
  have hN := q.capacity_pos hI
  constructor
  · rw [capacity_pushHead]
    unfold PushHead
    split
    · exact hN
    · exact Nat.mod_lt _ hN
  · rw [capacity_pushHead]
    unfold PushHead
    split
    · exact hN
    · exact Nat.min_le_right _ _

theorem inv_popHead (q : CacheQueue α) (hI : q.Inv) : (PopHead q).Inv := by
  have hN := q.capacity_pos hI
  constructor
  · rw [capacity_popHead]
    unfold PopHead
    split
    · exact hI.1
    · exact Nat.mod_lt _ hN
  · have h2 : q.currSize ≤ q.Capacity := hI.2
    rw [capacity_popHead, currSize_popHead]
    omega

theorem inv_popBack (q : CacheQueue α) (hI : q.Inv) : (PopBack q).Inv := by
  constructor
  · rw [capacity_popBack]
    unfold PopBack
    split <;> exact hI.1
  · have h2 : q.currSize ≤ q.Capacity := hI.2
    rw [capacity_popBack, currSize_popBack]
    omega

theorem inv_clear (q : CacheQueue α) (hI : q.Inv) : (Clear q).Inv :=
  ⟨q.capacity_pos hI, Nat.zero_le _⟩

theorem content_of_empty (q : CacheQueue α) (h0 : q.currSize = 0) : content q = [] := by
  simp [content, h0]

/-- `PushBack` on a non-full queue appends the new element at the logical back. -/
theorem content_pushBack_of_lt (q : CacheQueue α) (x : α) (hI : q.Inv)
    (h : q.currSize < q.Capacity) :
    content (PushBack x q) = content q ++ [x] := by
  have hN := q.capacity_pos hI
  have hNl : 0 < q.circleQ.length := hN
  by_cases h0 : q.currSize = 0
  · rw [pushBack_empty_eq q x h0, content_of_empty q h0]
    simp only [content, Capacity, List.length_set, List.range_succ, List.range_zero,
      List.nil_append, List.map_cons, List.map_nil, Nat.zero_add, Nat.zero_mod]
    rw [getD_set_self _ 0 x default hNl]
  · rw [pushBack_mid_eq q x h0 (Nat.ne_of_lt h)]
    have hmin : min (q.currSize + 1) q.circleQ.length = q.currSize + 1 := Nat.min_eq_left h
    simp only [content, Capacity, Length, List.length_set]
    rw [hmin, List.range_succ, List.map_append, List.map_cons, List.map_nil]
    congr 1
    · apply List.map_congr_left
      intro i hi
      rw [List.mem_range] at hi
      apply getD_set_ne
      intro e
      have hi' : i < q.circleQ.length := Nat.lt_trans hi h
      have := add_mod_inj (h : q.currSize < q.circleQ.length) hi' e
      omega
    · rw [getD_set_self _ _ x default (Nat.mod_lt _ hNl)]

/-- `PushBack` on a full queue overwrites the front slot, which becomes the new back. -/
theorem content_pushBack_of_full (q : CacheQueue α) (x : α) (hI : q.Inv)
    (h0 : q.currSize ≠ 0) (hf : q.currSize = q.Capacity) :
    content (PushBack x q) = (content q).drop 1 ++ [x] := by
  have hN := q.capacity_pos hI
  have hNl : 0 < q.circleQ.length := hN
  have hh : q.head < q.circleQ.length := hI.1
  have hfl : q.currSize = q.circleQ.length := hf
  rw [pushBack_full_eq q x h0 hf]
  simp only [content, Capacity, List.length_set]
  conv_rhs =>
    rw [show q.currSize = (q.currSize - 1) + 1 by omega, List.range_succ_eq_map,
      List.map_cons, List.map_map, List.drop_one, List.tail_cons]
  rw [show q.currSize = (q.currSize - 1) + 1 by omega, List.range_succ, List.map_append,
    List.map_cons, List.map_nil]
  congr 1
  · apply List.map_congr_left
    intro i hi
    rw [List.mem_range] at hi
    have hstep : ((q.head + 1) % q.circleQ.length + i) % q.circleQ.length =
        (q.head + (i + 1)) % q.circleQ.length := by
      rw [Nat.mod_add_mod]
      congr 1
      omega
    rw [hstep]
    rw [getD_set_ne]
    · simp [Function.comp, Nat.succ_eq_add_one]
    · intro e
      have e' : (q.head + 0) % q.circleQ.length = (q.head + (i + 1)) % q.circleQ.length := by
        rw [Nat.add_zero, Nat.mod_eq_of_lt hh]
        exact e
      have := add_mod_inj hNl (show i + 1 < q.circleQ.length by omega) e'
      omega
  · have hstep : ((q.head + 1) % q.circleQ.length + (q.currSize - 1)) % q.circleQ.length =
        q.head := by
      rw [Nat.mod_add_mod, show q.head + 1 + (q.currSize - 1) = q.head + q.circleQ.length by
        omega, Nat.add_mod_right, Nat.mod_eq_of_lt hh]
    rw [hstep, getD_set_self _ _ x default hh]

/-- `PushHead` on a non-full queue prepends the new element at the logical front. -/
theorem content_pushHead_of_lt (q : CacheQueue α) (x : α) (hI : q.Inv)
    (h : q.currSize < q.Capacity) :
    content (PushHead x q) = x :: content q := by
  have hN := q.capacity_pos hI
  have hNl : 0 < q.circleQ.length := hN
  by_cases h0 : q.currSize = 0
  · rw [pushHead_empty_eq q x h0, content_of_empty q h0]
    simp only [content, Capacity, List.length_set, List.range_succ, List.range_zero,
      List.nil_append, List.map_cons, List.map_nil, Nat.zero_add, Nat.zero_mod]
    rw [getD_set_self _ 0 x default hNl]
  · rw [pushHead_cons_eq q x h0]
    have hmin : min (q.currSize + 1) q.circleQ.length = q.currSize + 1 := Nat.min_eq_left h
    simp only [content, Capacity, List.length_set]
    rw [hmin, List.range_succ_eq_map, List.map_cons, List.map_map]
    congr 1
    · rw [Nat.add_zero, Nat.mod_eq_of_lt (Nat.mod_lt _ hNl)]
      rw [getD_set_self _ _ x default (Nat.mod_lt _ hNl)]
    · apply List.map_congr_left
      intro i hi
      rw [List.mem_range] at hi
      simp only [Function.comp_apply, Nat.succ_eq_add_one]
      have hstep : ((q.head + q.circleQ.length - 1) % q.circleQ.length + (i + 1)) %
          q.circleQ.length = (q.head + i) % q.circleQ.length := by
        rw [Nat.mod_add_mod, show q.head + q.circleQ.length - 1 + (i + 1) =
          q.head + i + q.circleQ.length by omega, Nat.add_mod_right]
      rw [hstep, getD_set_ne]
      intro e
      have e' : (q.head + (q.circleQ.length - 1)) % q.circleQ.length =
          (q.head + i) % q.circleQ.length := by
        rw [show q.head + (q.circleQ.length - 1) = q.head + q.circleQ.length - 1 by omega]
        exact e
      have := add_mod_inj (show q.circleQ.length - 1 < q.circleQ.length by omega)
        (Nat.lt_trans hi h) e'
      omega

/-- `PushHead` on a full queue overwrites the back slot, which becomes the new front. -/
theorem content_pushHead_of_full (q : CacheQueue α) (x : α) (hI : q.Inv)
    (h0 : q.currSize ≠ 0) (hf : q.currSize = q.Capacity) :
    content (PushHead x q) = x :: (content q).dropLast := by
  have hN := q.capacity_pos hI
  have hNl : 0 < q.circleQ.length := hN
  have hfl : q.currSize = q.circleQ.length := hf
  rw [pushHead_cons_eq q x h0]
  have hmin : min (q.currSize + 1) q.circleQ.length = q.currSize := by omega
  simp only [content, Capacity, List.length_set]
  rw [hmin]
  conv_rhs =>
    rw [show q.currSize = (q.currSize - 1) + 1 by omega, List.range_succ, List.map_append,
      List.map_cons, List.map_nil, List.dropLast_concat]
  rw [show q.currSize = (q.currSize - 1) + 1 by omega, List.range_succ_eq_map,
    List.map_cons, List.map_map]
  congr 1
  · rw [Nat.add_zero, Nat.mod_eq_of_lt (Nat.mod_lt _ hNl)]
    rw [getD_set_self _ _ x default (Nat.mod_lt _ hNl)]
  · apply List.map_congr_left
    intro i hi
    rw [List.mem_range] at hi
    simp only [Function.comp_apply, Nat.succ_eq_add_one]
    have hstep : ((q.head + q.circleQ.length - 1) % q.circleQ.length + (i + 1)) %
        q.circleQ.length = (q.head + i) % q.circleQ.length := by
      rw [Nat.mod_add_mod, show q.head + q.circleQ.length - 1 + (i + 1) =
        q.head + i + q.circleQ.length by omega, Nat.add_mod_right]
    rw [hstep, getD_set_ne]
    intro e
    have e' : (q.head + (q.circleQ.length - 1)) % q.circleQ.length =
        (q.head + i) % q.circleQ.length := by
      rw [show q.head + (q.circleQ.length - 1) = q.head + q.circleQ.length - 1 by omega]
      exact e
    have := add_mod_inj (show q.circleQ.length - 1 < q.circleQ.length by omega)
      (show i < q.circleQ.length by omega) e'
    omega

theorem popHead_empty_eq (q : CacheQueue α) (h0 : q.currSize = 0) : PopHead q = q := by
  simp [PopHead, Empty, h0]

theorem popBack_empty_eq (q : CacheQueue α) (h0 : q.currSize = 0) : PopBack q = q := by
  simp [PopBack, Empty, h0]

/-- `PopHead` drops the logical front element. -/
theorem content_popHead (q : CacheQueue α) :
    content (PopHead q) = (content q).drop 1 := by
  by_cases h0 : q.currSize = 0
  · rw [popHead_empty_eq q h0, content_of_empty q h0]
    rfl
  · rw [popHead_eq q h0]
    simp only [content, Capacity]
    conv_rhs =>
      rw [show q.currSize = (q.currSize - 1) + 1 by omega, List.range_succ_eq_map,
        List.map_cons, List.map_map, List.drop_one, List.tail_cons]
    apply List.map_congr_left
    intro i hi
    rw [List.mem_range] at hi
    simp only [Function.comp_apply, Nat.succ_eq_add_one]
    rw [Nat.mod_add_mod, show q.head + 1 + i = q.head + (i + 1) by omega]

/-- `PopBack` drops the logical back element. -/
theorem content_popBack (q : CacheQueue α) :
    content (PopBack q) = (content q).dropLast := by
  by_cases h0 : q.currSize = 0
  · rw [popBack_empty_eq q h0, content_of_empty q h0]
    rfl
  · rw [popBack_eq q h0]
    simp only [content, Capacity]
    conv_rhs =>
      rw [show q.currSize = (q.currSize - 1) + 1 by omega, List.range_succ, List.map_append,
        List.map_cons, List.map_nil, List.dropLast_concat]

/-- The first logical element is `Head()`. -/
theorem take_one_content (q : CacheQueue α) (hI : q.Inv) (h0 : q.currSize ≠ 0) :
    (content q).take 1 = [q.Head] := by
  simp only [content]
  rw [show q.currSize = (q.currSize - 1) + 1 by omega, List.range_succ_eq_map, List.map_cons,
    List.take_succ_cons, List.take_zero, Nat.add_zero, Nat.mod_eq_of_lt (hI.1 : _)]
  rfl

/-- The last logical element is `Back()`. -/
theorem drop_pred_content (q : CacheQueue α) (_hI : q.Inv) (h0 : q.currSize ≠ 0) :
    (content q).drop (q.currSize - 1) = [q.Back] := by
  simp only [content]
  have hrange : List.range q.currSize = List.range ((q.currSize - 1) + 1) := by
    congr 1
    omega
  have hlen : ((List.range (q.currSize - 1)).map fun i =>
      q.circleQ.getD ((q.head + i) % q.Capacity) default).length = q.currSize - 1 := by
    simp
  rw [hrange, List.range_succ, List.map_append, List.map_cons, List.map_nil,
    List.drop_left' hlen]
  congr 1
  unfold Back Length
  congr 1
  rw [show q.head + q.currSize + q.Capacity - 1 = q.head + (q.currSize - 1) + q.Capacity
    by omega, Nat.add_mod_right]

theorem currSize_rotF (p : CacheQueue α) (hI : p.Inv) (h0 : p.currSize ≠ 0) :
    (rotF p).currSize = p.currSize := by
  have h1 := hI.1
  have h2 := hI.2
  have hsz : (PopHead p).currSize < (PopHead p).Capacity := by
    rw [currSize_popHead, capacity_popHead]
    omega
  rw [rotF, currSize_pushBack _ _ hsz, currSize_popHead]
  omega

theorem currSize_rotB (p : CacheQueue α) (hI : p.Inv) (h0 : p.currSize ≠ 0) :
    (rotB p).currSize = p.currSize := by
  have h1 := hI.1
  have h2 := hI.2
  have hsz : (PopBack p).currSize < (PopBack p).Capacity := by
    rw [currSize_popBack, capacity_popBack]
    omega
  rw [rotB, currSize_pushHead _ _ hsz, currSize_popBack]
  omega

theorem capacity_rotF (p : CacheQueue α) : (rotF p).Capacity = p.Capacity := by
  rw [rotF, capacity_pushBack, capacity_popHead]

theorem capacity_rotB (p : CacheQueue α) : (rotB p).Capacity = p.Capacity := by
  rw [rotB, capacity_pushHead, capacity_popBack]

theorem inv_rotF (p : CacheQueue α) (hI : p.Inv) : (rotF p).Inv :=
  inv_pushBack _ _ (inv_popHead _ hI)

theorem inv_rotB (p : CacheQueue α) (hI : p.Inv) : (rotB p).Inv :=
  inv_pushHead _ _ (inv_popBack _ hI)

/-- One forward rotation step rotates the logical content left by one. -/
theorem content_rotF (q : CacheQueue α) (hI : q.Inv) (h0 : q.currSize ≠ 0) :
    content (rotF q) = (content q).rotate 1 := by
  have h1 := hI.1
  have h2 := hI.2
  have hI' := inv_popHead q hI
  have hsz : (PopHead q).currSize < (PopHead q).Capacity := by
    rw [currSize_popHead, capacity_popHead]
    omega
  rw [rotF, content_pushBack_of_lt _ _ hI' hsz, content_popHead q,
    List.rotate_eq_drop_append_take (by rw [length_content]; omega),
    ← take_one_content q hI h0]

/-- One backward rotation step rotates the logical content left by `length - 1`
(equivalently, right by one). -/
theorem content_rotB (q : CacheQueue α) (hI : q.Inv) (h0 : q.currSize ≠ 0) :
    content (rotB q) = (content q).rotate (q.currSize - 1) := by
  have h1 := hI.1
  have h2 := hI.2
  have hI' := inv_popBack q hI
  have hsz : (PopBack q).currSize < (PopBack q).Capacity := by
    rw [currSize_popBack, capacity_popBack]
    omega
  rw [rotB, content_pushHead_of_lt _ _ hI' hsz, content_popBack q,
    List.rotate_eq_drop_append_take (by rw [length_content]; omega),
    drop_pred_content q hI h0, List.dropLast_eq_take, length_content]
  rfl

/-- Iterated forward rotation steps: content rotates left by the step count, and the
state stays well-formed with unchanged size and capacity. -/
theorem rotF_iter (q : CacheQueue α) (hI : q.Inv) (h0 : q.currSize ≠ 0) (n : Nat) :
    content (rotF^[n] q) = (content q).rotate n ∧ (rotF^[n] q).Inv ∧
    (rotF^[n] q).currSize = q.currSize ∧ (rotF^[n] q).Capacity = q.Capacity := by
  induction n with
  | zero => exact ⟨by simp, by simpa using hI, by simp, by simp⟩
  | succ n ih =>
    obtain ⟨hc, hi, hs, hcap⟩ := ih
    have h0' : (rotF^[n] q).currSize ≠ 0 := by rw [hs]; exact h0
    refine ⟨?_, ?_, ?_, ?_⟩ <;> rw [Function.iterate_succ_apply']
    · rw [content_rotF _ hi h0', hc, List.rotate_rotate]
    · exact inv_rotF _ hi
    · rw [currSize_rotF _ hi h0', hs]
    · rw [capacity_rotF, hcap]

/-- Iterated backward rotation steps: content rotates left by `n * (length - 1)`. -/
theorem rotB_iter (q : CacheQueue α) (hI : q.Inv) (h0 : q.currSize ≠ 0) (n : Nat) :
    content (rotB^[n] q) = (content q).rotate (n * (q.currSize - 1)) ∧ (rotB^[n] q).Inv ∧
    (rotB^[n] q).currSize = q.currSize ∧ (rotB^[n] q).Capacity = q.Capacity := by
  induction n with
  | zero => exact ⟨by simp, by simpa using hI, by simp, by simp⟩
  | succ n ih =>
    obtain ⟨hc, hi, hs, hcap⟩ := ih
    have h0' : (rotB^[n] q).currSize ≠ 0 := by rw [hs]; exact h0
    refine ⟨?_, ?_, ?_, ?_⟩ <;> rw [Function.iterate_succ_apply']
    · rw [content_rotB _ hi h0', hc, hs, List.rotate_rotate]
      congr 1
      ring
    · exact inv_rotB _ hi
    · rw [currSize_rotB _ hi h0', hs]
    · rw [capacity_rotB, hcap]

theorem rotate_pos_eq (q : CacheQueue α) (k : Int) (h0 : q.currSize ≠ 0) (hk : 0 < k) :
    Rotate q k = rotF^[k.natAbs] q := by
  have hna : k.natAbs ≠ 0 := by omega
  simp [Rotate, Empty, h0, hna, hk]

theorem rotate_neg_eq (q : CacheQueue α) (k : Int) (h0 : q.currSize ≠ 0) (hk : k < 0) :
    Rotate q k = rotB^[k.natAbs] q := by
  have hna : k.natAbs ≠ 0 := by omega
  have hk' : ¬(k > 0) := by omega
  simp [Rotate, Empty, h0, hna, hk']

theorem rotate_zero_eq (q : CacheQueue α) : Rotate q 0 = q := by
  simp [Rotate]

theorem rotate_empty_eq (q : CacheQueue α) (k : Int) (h0 : q.currSize = 0) :
    Rotate q k = q := by
  simp [Rotate, Empty, h0]

/-- `Rotate` preserves the invariant, the capacity and the element count, for any
argument sign and any fill level. -/
theorem rotate_preserves (q : CacheQueue α) (k : Int) (hI : q.Inv) :
    (Rotate q k).Inv ∧ (Rotate q k).Capacity = q.Capacity ∧
    (Rotate q k).currSize = q.currSize := by
  by_cases h0 : q.currSize = 0
  · rw [rotate_empty_eq q k h0]
    exact ⟨hI, rfl, rfl⟩
  · rcases lt_trichotomy k 0 with hk | hk | hk
    · rw [rotate_neg_eq q k h0 hk]
      obtain ⟨_, hi, hs, hcap⟩ := rotB_iter q hI h0 k.natAbs
      exact ⟨hi, hcap, hs⟩
    · rw [hk, rotate_zero_eq]
      exact ⟨hI, rfl, rfl⟩
    · rw [rotate_pos_eq q k h0 hk]
      obtain ⟨_, hi, hs, hcap⟩ := rotF_iter q hI h0 k.natAbs
      exact ⟨hi, hcap, hs⟩

theorem rotate_mul_len {β : Type} (l : List β) (n : Nat) : l.rotate (n * l.length) = l := by
  rw [← List.rotate_mod, Nat.mul_mod_left, List.rotate_zero]

/-- Each public operation preserves the invariant and the capacity. -/
theorem applyOp_preserves (q : CacheQueue α) (op : Op α) (hI : q.Inv) :
    (applyOp q op).Inv ∧ (applyOp q op).Capacity = q.Capacity := by
  cases op with
  | pushHead x => exact ⟨inv_pushHead q x hI, capacity_pushHead q x⟩
  | pushBack x => exact ⟨inv_pushBack q x hI, capacity_pushBack q x⟩
  | popHead => exact ⟨inv_popHead q hI, capacity_popHead q⟩
  | popBack => exact ⟨inv_popBack q hI, capacity_popBack q⟩
  | clear => exact ⟨inv_clear q hI, capacity_clear q⟩
  | rotate k =>
    obtain ⟨hi, hcap, _⟩ := rotate_preserves q k hI
    exact ⟨hi, hcap⟩

theorem foldl_preserves (ops : List (Op α)) (q : CacheQueue α) (hI : q.Inv) :
    (ops.foldl applyOp q).Inv ∧ (ops.foldl applyOp q).Capacity = q.Capacity := by
  induction ops generalizing q with
  | nil => exact ⟨hI, rfl⟩
  | cons op ops ih =>
    obtain ⟨hi, hcap⟩ := applyOp_preserves q op hI
    obtain ⟨hi', hcap'⟩ := ih (applyOp q op) hi
    exact ⟨hi', hcap'.trans hcap⟩

theorem init_inv {β : Type} [Inhabited β] (N : Nat) (hN : 0 < N) :
    (init β N).Inv ∧ (init β N).Capacity = N := by
  refine ⟨⟨?_, ?_⟩, ?_⟩ <;> simp [init, Capacity, hN]

/-- Iterating `PopHead` `i ≤ length` times advances the head by `i` slots (mod `N`)
and shrinks the count by `i`, leaving the storage untouched. -/
theorem popHead_iter (q : CacheQueue α) (hI : q.Inv) (i : Nat) (hle : i ≤ q.currSize) :
    PopHead^[i] q = ⟨q.circleQ, (q.head + i) % q.Capacity, q.currSize - i⟩ := by
  induction i with
  | zero =>
    rw [Function.iterate_zero_apply, Nat.add_zero, Nat.mod_eq_of_lt (hI.1 : _), Nat.sub_zero]
  | succ i ih =>
    rw [Function.iterate_succ_apply', ih (by omega),
      popHead_eq _ (show q.currSize - i ≠ 0 by omega)]
    simp only [Capacity, Nat.mod_add_mod]
    have h1 : q.head + i + 1 = q.head + (i + 1) := by omega
    have h2 : q.currSize - i - 1 = q.currSize - (i + 1) := by omega
    rw [h1, h2]

end CacheQueue

namespace CacheQueue

variable {α : Type} [Inhabited α]

/-- C1: on a full buffer of positive capacity holding logical elements `e0..e_{N-1}`,
`PushBack x` yields logical content `e1..e_{N-1}, x` with the length still `N` (the
front element is discarded), and `PushHead x` yields `x, e0..e_{N-2}` with the length
still `N` (the back element is discarded). -/
theorem pushOnFull_overwrites (q : CacheQueue α) (x : α) (hI : q.Inv)
    (hf : q.Full = true) :
    content (PushBack x q) = (content q).drop 1 ++ [x] ∧
    (PushBack x q).currSize = q.Capacity ∧
    content (PushHead x q) = x :: (content q).take (q.Capacity - 1) ∧
    (PushHead x q).currSize = q.Capacity := by
  have hf' : q.currSize = q.Capacity := by simpa [Full] using hf
  have h0 : q.currSize ≠ 0 := by have := q.capacity_pos hI; omega
  refine ⟨content_pushBack_of_full q x hI h0 hf', ?_, ?_, ?_⟩
  · rw [currSize_pushBack_full q x h0 hf', hf']
  · rw [content_pushHead_of_full q x hI h0 hf', List.dropLast_eq_take, length_content, hf']
  · rw [currSize_pushHead_full q x h0 hf', hf']

theorem pushOnFull_overwrites_witness :
    ((⟨[10, 20, 30], 0, 3⟩ : CacheQueue Nat).Inv ∧
      (⟨[10, 20, 30], 0, 3⟩ : CacheQueue Nat).Full = true) ∧
    (content (PushBack 7 (⟨[10, 20, 30], 0, 3⟩ : CacheQueue Nat)) =
        (content (⟨[10, 20, 30], 0, 3⟩ : CacheQueue Nat)).drop 1 ++ [7] ∧
      (PushBack 7 (⟨[10, 20, 30], 0, 3⟩ : CacheQueue Nat)).currSize =
        (⟨[10, 20, 30], 0, 3⟩ : CacheQueue Nat).Capacity ∧
      content (PushHead 7 (⟨[10, 20, 30], 0, 3⟩ : CacheQueue Nat)) =
        7 :: (content (⟨[10, 20, 30], 0, 3⟩ : CacheQueue Nat)).take
          ((⟨[10, 20, 30], 0, 3⟩ : CacheQueue Nat).Capacity - 1) ∧
      (PushHead 7 (⟨[10, 20, 30], 0, 3⟩ : CacheQueue Nat)).currSize =
        (⟨[10, 20, 30], 0, 3⟩ : CacheQueue Nat).Capacity) :=
  ⟨⟨by decide, by decide⟩, pushOnFull_overwrites _ 7 (by decide) (by decide)⟩

/-- C2: every state reachable from the freshly constructed buffer of capacity `N > 0`
by any sequence of the public operations satisfies `length ≤ N` and `head < N` (both
are `Nat`, so `0 ≤ length` and `0 ≤ head` hold trivially); all the operations are
modelled as total functions, so they always succeed. -/
theorem run_invariant {β : Type} [Inhabited β] (N : Nat) (hN : 0 < N)
    (ops : List (Op β)) :
    (run β N ops).currSize ≤ N ∧ (run β N ops).head < N := by
  obtain ⟨hi0, hc0⟩ := init_inv (β := β) N hN
  obtain ⟨hi, hc⟩ := foldl_preserves ops (init β N) hi0
  rw [hc0] at hc
  exact ⟨le_of_le_of_eq hi.2 hc, lt_of_lt_of_eq hi.1 hc⟩

theorem run_invariant_witness :
    0 < 2 ∧
    ((run Nat 2 [Op.pushBack 5, Op.rotate 3, Op.popHead, Op.pushHead 7, Op.pushHead 8,
        Op.rotate (-2), Op.pushBack 9, Op.popBack, Op.clear, Op.pushBack 1]).currSize ≤ 2 ∧
      (run Nat 2 [Op.pushBack 5, Op.rotate 3, Op.popHead, Op.pushHead 7, Op.pushHead 8,
        Op.rotate (-2), Op.pushBack 9, Op.popBack, Op.clear, Op.pushBack 1]).head < 2) :=
  ⟨by decide, run_invariant 2 (by decide) _⟩

/-- C3: the claim fails on the code. `Reset()` calls
`std::rotate(m_CircleQ.begin(), m_CircleQ.end(), m_CircleQ.begin() + m_Head)`, passing
the middle iterator after the last one: for every valid state (`head < N`) the
precondition `nFirst ≤ last` of `std::rotate` is violated, so the call is undefined
behavior (modelled as `none`). `m_Head` is also never reset, so even under the intended
rotation `HeadOff()` would not become `0` and the logical content would not be
preserved. -/
theorem reset_rotate_precondition_fails (q : CacheQueue α) (hI : q.Inv) :
    q.Reset = none := by
  have hh : q.head < q.circleQ.length := hI.1
  unfold Reset stdRotate
  rw [if_neg]
  · rfl
  · rintro ⟨-, h2, -⟩
    omega

theorem reset_rotate_precondition_fails_witness :
    (⟨[1, 2], 1, 1⟩ : CacheQueue Nat).Inv ∧ (⟨[1, 2], 1, 1⟩ : CacheQueue Nat).Reset = none :=
  ⟨by decide, reset_rotate_precondition_fails _ (by decide)⟩

/-- C4: on a full buffer, `Rotate k` with `k > 0` is content-preserving: no element is
overwritten or lost; the resulting logical content is the cyclic left shift of the
original by `k` and the length stays `N`. -/
theorem rotate_full_pos (q : CacheQueue α) (k : Int) (hI : q.Inv) (hf : q.Full = true)
    (hk : 0 < k) :
    content (Rotate q k) = (content q).rotate k.natAbs ∧
    (Rotate q k).currSize = q.Capacity := by
  have hf' : q.currSize = q.Capacity := by simpa [Full] using hf
  have h0 : q.currSize ≠ 0 := by have := q.capacity_pos hI; omega
  rw [rotate_pos_eq q k h0 hk]
  obtain ⟨hc, _, hs, _⟩ := rotF_iter q hI h0 k.natAbs
  exact ⟨hc, by rw [hs, hf']⟩

theorem rotate_full_pos_witness :
    ((⟨[1, 2, 3], 0, 3⟩ : CacheQueue Nat).Inv ∧
      (⟨[1, 2, 3], 0, 3⟩ : CacheQueue Nat).Full = true ∧ (0 : Int) < 2) ∧
    (content (Rotate (⟨[1, 2, 3], 0, 3⟩ : CacheQueue Nat) 2) =
        (content (⟨[1, 2, 3], 0, 3⟩ : CacheQueue Nat)).rotate (2 : Int).natAbs ∧
      (Rotate (⟨[1, 2, 3], 0, 3⟩ : CacheQueue Nat) 2).currSize =
        (⟨[1, 2, 3], 0, 3⟩ : CacheQueue Nat).Capacity) :=
  ⟨⟨by decide, by decide, by decide⟩,
    rotate_full_pos _ 2 (by decide) (by decide) (by decide)⟩

/-- C5: for a non-empty buffer of logical length `L`, rotating by any integer multiple
of `L` restores the original logical order, and `Rotate k` followed by `Rotate (-k)`
restores the original logical order for every integer `k`. -/
theorem rotate_restores (q : CacheQueue α) (hI : q.Inv) (h0 : q.currSize ≠ 0) :
    (∀ m : Int, content (Rotate q (m * (q.currSize : Int))) = content q) ∧
    (∀ k : Int, content (Rotate (Rotate q k) (-k)) = content q) := by
  have hlen := length_content q
  obtain ⟨L, hL⟩ : ∃ L, q.currSize = L + 1 := ⟨q.currSize - 1, by omega⟩
  have harith : ∀ a : Nat, a * (q.currSize - 1) + a = a * q.currSize := by
    intro a
    rw [hL, Nat.add_sub_cancel]
    ring
  have harith' : ∀ a : Nat, a + a * (q.currSize - 1) = a * q.currSize := by
    intro a
    rw [hL, Nat.add_sub_cancel]
    ring
  constructor
  · intro m
    rcases lt_trichotomy m 0 with hm | hm | hm
    · have hk : m * (q.currSize : Int) < 0 :=
        mul_neg_of_neg_of_pos hm (by exact_mod_cast Nat.pos_of_ne_zero h0)
      rw [rotate_neg_eq q _ h0 hk]
      obtain ⟨hc, _, _, _⟩ := rotB_iter q hI h0 (m * (q.currSize : Int)).natAbs
      rw [hc, Int.natAbs_mul, Int.natAbs_ofNat]
      have hmul := rotate_mul_len (content q) (m.natAbs * (q.currSize - 1))
      rw [hlen] at hmul
      rw [show m.natAbs * q.currSize * (q.currSize - 1) =
        m.natAbs * (q.currSize - 1) * q.currSize by ring]
      exact hmul
    · rw [hm, Int.zero_mul, rotate_zero_eq]
    · have hk : 0 < m * (q.currSize : Int) :=
        mul_pos hm (by exact_mod_cast Nat.pos_of_ne_zero h0)
      rw [rotate_pos_eq q _ h0 hk]
      obtain ⟨hc, _, _, _⟩ := rotF_iter q hI h0 (m * (q.currSize : Int)).natAbs
      rw [hc, Int.natAbs_mul, Int.natAbs_ofNat]
      have hmul := rotate_mul_len (content q) m.natAbs
      rw [hlen] at hmul
      exact hmul
  · intro k
    rcases lt_trichotomy k 0 with hk | hk | hk
    · rw [rotate_neg_eq q k h0 hk]
      obtain ⟨hc1, hi1, hs1, _⟩ := rotB_iter q hI h0 k.natAbs
      have h01 : (rotB^[k.natAbs] q).currSize ≠ 0 := by rw [hs1]; exact h0
      rw [rotate_pos_eq _ (-k) h01 (by omega)]
      obtain ⟨hc2, _, _, _⟩ := rotF_iter _ hi1 h01 (-k).natAbs
      rw [hc2, hc1, Int.natAbs_neg, List.rotate_rotate, harith k.natAbs]
      have hmul := rotate_mul_len (content q) k.natAbs
      rw [hlen] at hmul
      exact hmul
    · rw [hk, rotate_zero_eq, neg_zero, rotate_zero_eq]
    · rw [rotate_pos_eq q k h0 hk]
      obtain ⟨hc1, hi1, hs1, _⟩ := rotF_iter q hI h0 k.natAbs
      have h01 : (rotF^[k.natAbs] q).currSize ≠ 0 := by rw [hs1]; exact h0
      rw [rotate_neg_eq _ (-k) h01 (by omega)]
      obtain ⟨hc2, _, _, _⟩ := rotB_iter _ hi1 h01 (-k).natAbs
      rw [hc2, hc1, hs1, Int.natAbs_neg, List.rotate_rotate, harith' k.natAbs]
      have hmul := rotate_mul_len (content q) k.natAbs
      rw [hlen] at hmul
      exact hmul

theorem rotate_restores_witness :
    ((⟨[5, 6, 7], 1, 2⟩ : CacheQueue Nat).Inv ∧
      (⟨[5, 6, 7], 1, 2⟩ : CacheQueue Nat).currSize ≠ 0) ∧
    ((∀ m : Int, content (Rotate (⟨[5, 6, 7], 1, 2⟩ : CacheQueue Nat)
        (m * ((⟨[5, 6, 7], 1, 2⟩ : CacheQueue Nat).currSize : Int))) =
          content (⟨[5, 6, 7], 1, 2⟩ : CacheQueue Nat)) ∧
      (∀ k : Int, content (Rotate (Rotate (⟨[5, 6, 7], 1, 2⟩ : CacheQueue Nat) k) (-k)) =
        content (⟨[5, 6, 7], 1, 2⟩ : CacheQueue Nat))) :=
  ⟨⟨by decide, by decide⟩, rotate_restores _ (by decide) (by decide)⟩

/-- C6: on a non-full buffer, `PushBack x` followed by `PopBack` restores the prior
logical length and leaves every previously-reachable logical element unchanged in value
and order. -/
theorem pushBack_popBack_inverse (q : CacheQueue α) (x : α) (hI : q.Inv)
    (hnf : q.Full = false) :
    (PopBack (PushBack x q)).currSize = q.currSize ∧
    content (PopBack (PushBack x q)) = content q := by
  have hne : q.currSize ≠ q.Capacity := by simpa [Full] using hnf
  have h : q.currSize < q.Capacity := by
    have h2 := hI.2
    omega
  constructor
  · rw [currSize_popBack, currSize_pushBack _ _ h]
    omega
  · rw [content_popBack, content_pushBack_of_lt q x hI h, List.dropLast_concat]

theorem pushBack_popBack_inverse_witness :
    ((⟨[1, 2, 3], 1, 2⟩ : CacheQueue Nat).Inv ∧
      (⟨[1, 2, 3], 1, 2⟩ : CacheQueue Nat).Full = false) ∧
    ((PopBack (PushBack 9 (⟨[1, 2, 3], 1, 2⟩ : CacheQueue Nat))).currSize =
        (⟨[1, 2, 3], 1, 2⟩ : CacheQueue Nat).currSize ∧
      content (PopBack (PushBack 9 (⟨[1, 2, 3], 1, 2⟩ : CacheQueue Nat))) =
        content (⟨[1, 2, 3], 1, 2⟩ : CacheQueue Nat)) :=
  ⟨⟨by decide, by decide⟩, pushBack_popBack_inverse _ 9 (by decide) (by decide)⟩

/-- C7, counterexample to the claim as stated: the claim says `operator[] i` aliases
physical slot `(head + i) % N` for every `i ≥ length`.  The source computes
`m_Head + nIndex + Capacity()` in `size_t`, which wraps modulo `2^64`: with `N = 3`,
`head = 0` and `i = 2^64 - 1` (a valid `size_t`, and `≥ length`) the code reads
physical slot `((2^64 + 2) % 2^64) % 3 = 2` (value `30`), while `(head + i) % 3 = 0`
(value `10`). -/
theorem atIdx_wrap_counterexample :
    (⟨[10, 20, 30], 0, 3⟩ : CacheQueue Nat).currSize ≤ 2 ^ 64 - 1 ∧
    (⟨[10, 20, 30], 0, 3⟩ : CacheQueue Nat).atIdx (2 ^ 64 - 1) ≠
      ([10, 20, 30] : List Nat).getD
        (((⟨[10, 20, 30], 0, 3⟩ : CacheQueue Nat).head + (2 ^ 64 - 1)) %
          (⟨[10, 20, 30], 0, 3⟩ : CacheQueue Nat).Capacity) default := by
  constructor
  · decide
  · decide

/-- C7, amended: for `i < length` (under the size bound `3 * N ≤ 2^64`, satisfied by
every instantiable `std::array`), `operator[] i` returns the `i`-th logical element
from the front (the element obtained by popping the front `i` times on a copy and
reading `Head()`); the out-of-range access `operator[] i` stays in storage but aliases
physical slot `((head + i + N) % 2^64) % N`, which equals the claim's `(head + i) % N`
exactly when `head + i + N < 2^64` — in particular for every `i ≥ length` below the
`size_t` wrap region — but not for `i` near `SIZE_MAX`. -/
theorem atIdx_wrap_spec (q : CacheQueue α) (hI : q.Inv) (hcap : 3 * q.Capacity ≤ 2 ^ 64) :
    (∀ i, i < q.currSize → q.atIdx i = (PopHead^[i] q).Head) ∧
    (∀ i, q.head + i + q.Capacity < 2 ^ 64 →
      q.atIdx i = q.circleQ.getD ((q.head + i) % q.Capacity) default) := by
  have h1 := hI.1
  have h2 := hI.2
  constructor
  · intro i hi
    rw [popHead_iter q hI i (le_of_lt hi)]
    simp only [atIdx, Head]
    rw [Nat.mod_eq_of_lt (show q.head + i + q.Capacity < 2 ^ 64 by omega),
      Nat.add_mod_right]
  · intro i hip
    rw [atIdx, Nat.mod_eq_of_lt hip, Nat.add_mod_right]

theorem atIdx_wrap_spec_witness :
    ((⟨[5, 6, 7], 2, 2⟩ : CacheQueue Nat).Inv ∧
      3 * (⟨[5, 6, 7], 2, 2⟩ : CacheQueue Nat).Capacity ≤ 2 ^ 64) ∧
    ((∀ i, i < (⟨[5, 6, 7], 2, 2⟩ : CacheQueue Nat).currSize →
        (⟨[5, 6, 7], 2, 2⟩ : CacheQueue Nat).atIdx i =
          (PopHead^[i] (⟨[5, 6, 7], 2, 2⟩ : CacheQueue Nat)).Head) ∧
      (∀ i, (⟨[5, 6, 7], 2, 2⟩ : CacheQueue Nat).head + i +
          (⟨[5, 6, 7], 2, 2⟩ : CacheQueue Nat).Capacity < 2 ^ 64 →
        (⟨[5, 6, 7], 2, 2⟩ : CacheQueue Nat).atIdx i =
          ([5, 6, 7] : List Nat).getD
            ((2 + i) % (⟨[5, 6, 7], 2, 2⟩ : CacheQueue Nat).Capacity) default)) :=
  ⟨⟨by decide, by decide⟩, atIdx_wrap_spec _ (by decide) (by decide)⟩

/-- C8: `Length()` is meant to return the current logical element count. The source
body is `return Size();` and no `Size` member or function exists anywhere in the
repository, so the code as written is ill-formed; the modelled intent (`m_CurrSize`,
as used by the file's own iteration idiom and by `Back`, `PushBack` and `BackOff`)
does equal the number of logical elements. -/
theorem length_eq_content_length (q : CacheQueue α) : q.Length = (content q).length := by
  rw [length_content]
  rfl

/-- C9: `Rotate k` leaves `Length()` unchanged for every integer `k` and every valid
buffer state — empty, partially filled, or full. -/
theorem rotate_preserves_length (q : CacheQueue α) (k : Int) (hI : q.Inv) :
    (Rotate q k).Length = q.Length :=
  (rotate_preserves q k hI).2.2

theorem rotate_preserves_length_witness :
    (⟨[4, 5], 1, 2⟩ : CacheQueue Nat).Inv ∧
    (Rotate (⟨[4, 5], 1, 2⟩ : CacheQueue Nat) (-3)).Length =
      (⟨[4, 5], 1, 2⟩ : CacheQueue Nat).Length :=
  ⟨by decide, rotate_preserves_length _ (-3) (by decide)⟩

/-- C10: every physical storage index computed by the public operations lies in
`[0, N)` for a valid state: the `Head()` slot, the `Back()` slot (also on an empty
buffer, where it is the in-range slot `(head + N - 1) % N` holding a stale value),
`BackOff()`, `operator[] i` for every `i`, and the slots written by `PushHead` and
`PushBack`. -/
theorem indices_in_range (q : CacheQueue α) (x : α) (hI : q.Inv) :
    q.HeadOff < q.Capacity ∧
    q.Back = q.circleQ.getD q.backIdx default ∧ q.backIdx < q.Capacity ∧
    q.BackOff < q.Capacity ∧
    (∀ i, (q.head + i + q.Capacity) % q.Capacity < q.Capacity) ∧
    q.pushHeadIdx < q.Capacity ∧ (PushHead x q).circleQ = q.circleQ.set q.pushHeadIdx x ∧
    q.pushBackIdx < q.Capacity ∧ (PushBack x q).circleQ = q.circleQ.set q.pushBackIdx x ∧
    (q.currSize = 0 → q.backIdx = (q.head + q.Capacity - 1) % q.Capacity) := by
  have hN := q.capacity_pos hI
  refine ⟨hI.1, rfl, Nat.mod_lt _ hN, Nat.mod_lt _ hN, fun i => Nat.mod_lt _ hN,
    ?_, ?_, ?_, ?_, ?_⟩
  · unfold pushHeadIdx
    split
    · exact hN
    · exact Nat.mod_lt _ hN
  · by_cases h0 : q.currSize = 0
    · rw [pushHead_empty_eq q x h0]
      simp [pushHeadIdx, Empty, h0]
    · rw [pushHead_cons_eq q x h0]
      simp [pushHeadIdx, Empty, h0]
  · unfold pushBackIdx
    split
    · exact hN
    · split
      · exact hI.1
      · exact Nat.mod_lt _ hN
  · by_cases h0 : q.currSize = 0
    · rw [pushBack_empty_eq q x h0]
      simp [pushBackIdx, Empty, h0]
    · by_cases hf : q.currSize = q.Capacity
      · have hc : q.Capacity ≠ 0 := fun hcc => h0 (hf.trans hcc)
        rw [pushBack_full_eq q x h0 hf]
        simp [pushBackIdx, Empty, Full, h0, hf, hc]
      · rw [pushBack_mid_eq q x h0 hf]
        simp [pushBackIdx, Empty, Full, h0, hf]
  · intro h0
    unfold backIdx Length
    rw [h0, Nat.add_zero]

theorem indices_in_range_witness :
    (⟨[0, 0, 0], 1, 0⟩ : CacheQueue Nat).Inv ∧
    ((⟨[0, 0, 0], 1, 0⟩ : CacheQueue Nat).HeadOff <
        (⟨[0, 0, 0], 1, 0⟩ : CacheQueue Nat).Capacity ∧
      (⟨[0, 0, 0], 1, 0⟩ : CacheQueue Nat).Back =
        ([0, 0, 0] : List Nat).getD (⟨[0, 0, 0], 1, 0⟩ : CacheQueue Nat).backIdx default ∧
      (⟨[0, 0, 0], 1, 0⟩ : CacheQueue Nat).backIdx <
        (⟨[0, 0, 0], 1, 0⟩ : CacheQueue Nat).Capacity ∧
      (⟨[0, 0, 0], 1, 0⟩ : CacheQueue Nat).BackOff <
        (⟨[0, 0, 0], 1, 0⟩ : CacheQueue Nat).Capacity ∧
      (∀ i, (1 + i + (⟨[0, 0, 0], 1, 0⟩ : CacheQueue Nat).Capacity) %
          (⟨[0, 0, 0], 1, 0⟩ : CacheQueue Nat).Capacity <
        (⟨[0, 0, 0], 1, 0⟩ : CacheQueue Nat).Capacity) ∧
      (⟨[0, 0, 0], 1, 0⟩ : CacheQueue Nat).pushHeadIdx <
        (⟨[0, 0, 0], 1, 0⟩ : CacheQueue Nat).Capacity ∧
      (PushHead 4 (⟨[0, 0, 0], 1, 0⟩ : CacheQueue Nat)).circleQ =
        ([0, 0, 0] : List Nat).set (⟨[0, 0, 0], 1, 0⟩ : CacheQueue Nat).pushHeadIdx 4 ∧
      (⟨[0, 0, 0], 1, 0⟩ : CacheQueue Nat).pushBackIdx <
        (⟨[0, 0, 0], 1, 0⟩ : CacheQueue Nat).Capacity ∧
      (PushBack 4 (⟨[0, 0, 0], 1, 0⟩ : CacheQueue Nat)).circleQ =
        ([0, 0, 0] : List Nat).set (⟨[0, 0, 0], 1, 0⟩ : CacheQueue Nat).pushBackIdx 4 ∧
      ((⟨[0, 0, 0], 1, 0⟩ : CacheQueue Nat).currSize = 0 →
        (⟨[0, 0, 0], 1, 0⟩ : CacheQueue Nat).backIdx =
          (1 + (⟨[0, 0, 0], 1, 0⟩ : CacheQueue Nat).Capacity - 1) %
            (⟨[0, 0, 0], 1, 0⟩ : CacheQueue Nat).Capacity)) :=
  ⟨by decide, indices_in_range _ 4 (by decide)⟩

end CacheQueue

section SanityChecks
open CacheQueue

example : content (PushBack 4 (⟨[1, 2, 3], 0, 3⟩ : CacheQueue Nat)) = [2, 3, 4] := by decide

example :
    content (Rotate (⟨[9, 3, 4], 1, 3⟩ : CacheQueue Nat) 1) = [4, 9, 3] := by decide

example :
    content (run Nat 3 [Op.pushBack 1, Op.pushBack 2, Op.pushBack 3, Op.pushBack 4,
      Op.popHead, Op.pushHead 9, Op.rotate 1]) = [3, 4, 9] := by decide

end SanityChecks
